import Mathlib

/-!
Shallow embedding of the Tag lifecycle core of `TagManager.ts`
(scale8/tag-manager): the five GraphQL mutation resolvers
`updateRuleGroupsOrder`, `deleteTag`, `updateTag`, `duplicateTag` and
`createTag`, over an explicit document store.  Collaborators that are not
part of the supplied source (the repositories, the authorization gate, the
branch/cascade utilities) are modelled from the specification and marked as
such in their doc comments.
-/

deriving instance DecidableEq for Except

namespace TagManager

/-- Opaque, comparable identifier (MongoDB `ObjectId` in the source). -/
abbrev ObjectId := Nat

/-- `enum TagType` from the GraphQL schema: a tag is `HEAD` or `PLACEMENT`. -/
inductive TagType where
  | HEAD
  | PLACEMENT
deriving DecidableEq, Repr

/-- The `Tag` document: id, owning organization, immutable lineage
`tagCode`, owning revision, type, ordered `ruleGroupIds`, placement
dimensions, `autoLoad` and `isActive` flags, and a name. -/
structure Tag where
  id : ObjectId
  orgId : ObjectId
  name : String
  tagCode : String
  revisionId : ObjectId
  type : TagType
  ruleGroupIds : List ObjectId
  width : Int
  height : Int
  autoLoad : Bool
  isActive : Bool
deriving DecidableEq, Repr

/-- The `RuleGroup` document (internal structure out of scope; only its id
and organization matter here). -/
structure RuleGroup where
  id : ObjectId
  orgId : ObjectId
deriving DecidableEq, Repr

/-- The `Revision` document: a container holding `tagIds`. -/
structure Revision where
  id : ObjectId
  orgId : ObjectId
  tagIds : List ObjectId
deriving DecidableEq, Repr

/-- Modelled from the spec: the generic persistence layer (`repoFactory`,
`findById`, `save`) is not under the supplied source; the document store is
modelled as three collections plus a fresh-id counter used when a new
entity is allocated. -/
structure Store where
  tags : List Tag
  revisions : List Revision
  ruleGroups : List RuleGroup
  nextId : ObjectId
deriving DecidableEq, Repr

/-- Modelled from the spec: the session/authorization context is exposed
only as capability checks (view/create/edit/delete access for an actor
against an organization), so it is modelled as the sets of organizations
for which each capability is granted. -/
structure CTX where
  viewOrgs : List ObjectId
  createOrgs : List ObjectId
  editOrgs : List ObjectId
  deleteOrgs : List ObjectId
deriving DecidableEq, Repr

/-- The error taxonomy of the resolvers: the fixed not-found messages
(`userMessages.tagFailed`, `userMessages.revisionFailed`), the reorder
validation message (`userMessages.reOrderProblem`), the auto-load/placement
validation message, authorization denial, and a persistence failure during
the delete cascade. -/
inductive GQLError where
  | tagFailed
  | revisionFailed
  | reOrderProblem
  | autoLoadPlacement
  | authDenied
  | cascadeFailure
deriving DecidableEq, Repr

/-- One entry of the `[ModelDeleteAcknowledgement!]!` result of `deleteTag`. -/
structure ModelDeleteAcknowledgement where
  modelId : ObjectId
  model : String
deriving DecidableEq, Repr

/-- `findByIdThrows` on the Tag repository, as a partial lookup: first tag
whose id matches. -/
def findTagById (s : Store) (i : ObjectId) : Option Tag :=
  s.tags.find? (fun t => t.id == i)

/-- `findByIdThrows` on the Revision repository. -/
def findRevisionById (s : Store) (i : ObjectId) : Option Revision :=
  s.revisions.find? (fun r => r.id == i)

/-- Replace the first document with a matching id, or append the document
if no id matches (document-level upsert, as `save` behaves on MongoDB). -/
def upsertTag : List Tag → Tag → List Tag
  | [], t => [t]
  | u :: us, t => if u.id == t.id then t :: us else u :: upsertTag us t

/-- Upsert for the revisions collection. -/
def upsertRevision : List Revision → Revision → List Revision
  | [], r => [r]
  | q :: qs, r => if q.id == r.id then r :: qs else q :: upsertRevision qs r

/-- Modelled from the spec: `save(entity, actor, owner, auditMeta)` on the
Tag repository persists the document; audit metadata has no effect on the
stored collections. -/
def saveTag (s : Store) (t : Tag) : Store :=
  { s with tags := upsertTag s.tags t }

/-- Modelled from the spec: `save` on the Revision repository. -/
def saveRevision (s : Store) (r : Revision) : Store :=
  { s with revisions := upsertRevision s.revisions r }

/-- Modelled from the spec: the authorization gate
`asUserWith<Capability>Access(context, orgId, continuation)` — the mutation
body only executes if the actor is granted the requested capability;
rejection short-circuits with no side effects. -/
def asUserWithAccess {α : Type} (granted : List ObjectId) (orgId : ObjectId)
    (s : Store) (k : Store → Except GQLError α × Store) :
    Except GQLError α × Store :=
  if orgId ∈ granted then k s else (Except.error GQLError.authDenied, s)

/-- The `updateRuleGroupsOrder` resolver: resolve the Tag (or fail with
`tagFailed`), gate on edit access, then accept `new_order` exactly when its
length equals the current `ruleGroupIds` length and every current id occurs
in `new_order`; on acceptance `ruleGroupIds` is replaced by `new_order`
verbatim and saved, otherwise `reOrderProblem` is raised. -/
def updateRuleGroupsOrder (ctx : CTX) (s : Store) (tag_id : ObjectId)
    (new_order : List ObjectId) : Except GQLError Bool × Store :=
  match findTagById s tag_id with
  | none => (Except.error GQLError.tagFailed, s)
  | some tag =>
    asUserWithAccess ctx.editOrgs tag.orgId s (fun s =>
      if tag.ruleGroupIds.length = new_order.length ∧
          ∀ i ∈ tag.ruleGroupIds, i ∈ new_order then
        (Except.ok true, saveTag s { tag with ruleGroupIds := new_order })
      else
        (Except.error GQLError.reOrderProblem, s))

/-- Modelled from the spec: `deleteModelCascading(actor, entity, previewFlag)
-> [Acknowledgement]` (in `ModelUtils`, not under the supplied source).  It
computes one acknowledgement for the Tag and one per RuleGroup the Tag
transitively owns; with the preview flag it performs no write, otherwise it
removes the Tag and its RuleGroups from the store. -/
def deleteModelCascading (s : Store) (t : Tag) (preview : Bool) :
    List ModelDeleteAcknowledgement × Store :=
  let acks : List ModelDeleteAcknowledgement :=
    { modelId := t.id, model := "Tag" } ::
      t.ruleGroupIds.map (fun i => { modelId := i, model := "RuleGroup" })
  if preview then
    (acks, s)
  else
    (acks,
      { s with
        tags := s.tags.filter (fun u => u.id != t.id)
        ruleGroups := s.ruleGroups.filter (fun g => !(t.ruleGroupIds.contains g.id)) })

/-- The `deleteTag` resolver: resolve the Tag (or fail with `tagFailed`),
gate on delete access; in non-preview mode first resolve the owning
Revision (or fail with `revisionFailed`), persist it with the Tag's id
filtered out of `tagIds`, and only then invoke the cascading delete.  In
preview mode the Revision is not resolved and nothing is persisted.  The
`cascadeOk` parameter injects a possible persistence failure of the
destructive cascade, in order to observe the state a mid-cascade failure
leaves behind. -/
def deleteTag (ctx : CTX) (s : Store) (tag_id : ObjectId) (preview : Bool)
    (cascadeOk : Bool) : Except GQLError (List ModelDeleteAcknowledgement) × Store :=
  match findTagById s tag_id with
  | none => (Except.error GQLError.tagFailed, s)
  | some tag =>
    asUserWithAccess ctx.deleteOrgs tag.orgId s (fun s =>
      if preview then
        let r := deleteModelCascading s tag true
        (Except.ok r.1, r.2)
      else
        match findRevisionById s tag.revisionId with
        | none => (Except.error GQLError.revisionFailed, s)
        | some revision =>
          let revision2 := { revision with
            tagIds := revision.tagIds.filter (fun i => i != tag.id) }
          let s1 := saveRevision s revision2
          if cascadeOk then
            let r := deleteModelCascading s1 tag false
            (Except.ok r.1, r.2)
          else
            (Except.error GQLError.cascadeFailure, s1))

/-- The `TagUpdateInput` payload: the target id, the optional allow-listed
fields, and the fields a loosely-typed payload could additionally carry
(`type`, `tag_code`, `revision_id`, `rule_group_ids`), which the resolver
must not apply. -/
structure TagUpdateInput where
  tag_id : ObjectId
  name : Option String
  is_active : Option Bool
  width : Option Int
  height : Option Int
  auto_load : Option Bool
  type : Option TagType
  tag_code : Option String
  revision_id : Option ObjectId
  rule_group_ids : Option (List ObjectId)
deriving DecidableEq, Repr

/-- Modelled from the spec: `tag.bulkGQLSet(data, allowList)` (on the model
base class, not under the supplied source) applies to the entity exactly
the fields of the payload that are present and in the allow-list — here
`name`, `width`, `height`, `auto_load`, `is_active` — leaving absent fields
at their prior values and ignoring every field outside the allow-list. -/
def bulkGQLSet (tag : Tag) (data : TagUpdateInput) : Tag :=
  { tag with
    name := data.name.getD tag.name
    width := data.width.getD tag.width
    height := data.height.getD tag.height
    autoLoad := data.auto_load.getD tag.autoLoad
    isActive := data.is_active.getD tag.isActive }

/-- The `updateTag` resolver: resolve the Tag (or fail with `tagFailed`),
gate on edit access, reject `auto_load = true` against an existing
`PLACEMENT` type, then apply the allow-listed present fields and save. -/
def updateTag (ctx : CTX) (s : Store) (data : TagUpdateInput) :
    Except GQLError Bool × Store :=
  match findTagById s data.tag_id with
  | none => (Except.error GQLError.tagFailed, s)
  | some tag =>
    asUserWithAccess ctx.editOrgs tag.orgId s (fun s =>
      if tag.type = TagType.PLACEMENT ∧ data.auto_load = some true then
        (Except.error GQLError.autoLoadPlacement, s)
      else
        (Except.ok true, saveTag s (bulkGQLSet tag data)))

/-- Modelled from the spec: `createNewModelBranchFromModel(actor,
sourceEntity, repoType)` (in `ModelUtils`, not under the supplied source)
deep-copies the source Tag into a new persisted entity that inherits the
same `tagCode` but receives a new identifier; the deep-copy semantics of
nested RuleGroups are delegated to it and out of this core's scope, so the
copied `ruleGroupIds` are kept as they are. -/
def createNewModelBranchFromModel (s : Store) (tag : Tag) : Tag × Store :=
  let newTag := { tag with id := s.nextId }
  (newTag, saveTag { s with nextId := s.nextId + 1 } newTag)

/-- The `duplicateTag` resolver: resolve the source Tag (or fail with
`tagFailed`), gate on create access, resolve its Revision (or fail with
`revisionFailed`), branch a new Tag from the source, append the new id to
the Revision's `tagIds` and save the Revision, then assign the supplied
name to the duplicate and save it. -/
def duplicateTag (ctx : CTX) (s : Store) (tag_id : ObjectId) (name : String) :
    Except GQLError Tag × Store :=
  match findTagById s tag_id with
  | none => (Except.error GQLError.tagFailed, s)
  | some tag =>
    asUserWithAccess ctx.createOrgs tag.orgId s (fun s =>
      match findRevisionById s tag.revisionId with
      | none => (Except.error GQLError.revisionFailed, s)
      | some revision =>
        let b := createNewModelBranchFromModel s tag
        let revision2 := { revision with tagIds := revision.tagIds ++ [b.1.id] }
        let s2 := saveRevision b.2 revision2
        let duplicate := { b.1 with name := name }
        (Except.ok duplicate, saveTag s2 duplicate))

/-- Modelled from the spec: the freshly generated lineage `tagCode` of a
new root Tag (generation lives in `TagUtils`, not under the supplied
source); modelled as a deterministic string derived from the fresh id. -/
def genTagCode (i : ObjectId) : String :=
  "tc" ++ toString i

/-- The `TagCreateInput` payload (GraphQL defaults already applied:
`width = 0`, `height = 0`, `auto_load = false`). -/
structure TagCreateInput where
  revision_id : ObjectId
  name : String
  type : TagType
  width : Int
  height : Int
  auto_load : Bool
deriving DecidableEq, Repr

/-- Modelled from the spec: `createTagSkeleton` (in `TagUtils`, not under
the supplied source) allocates a new Tag with a freshly generated lineage
`tagCode`, empty `ruleGroupIds`, `revisionId` set to the target Revision,
persists it, then appends the new Tag's id to the Revision's `tagIds` and
persists that change too. -/
def createTagSkeleton (s : Store) (revision : Revision) (name : String)
    (type : TagType) (width height : Int) (auto_load : Bool) : Tag × Store :=
  let tag : Tag :=
    { id := s.nextId
      orgId := revision.orgId
      name := name
      tagCode := genTagCode s.nextId
      revisionId := revision.id
      type := type
      ruleGroupIds := []
      width := width
      height := height
      autoLoad := auto_load
      isActive := true }
  let s1 := saveTag { s with nextId := s.nextId + 1 } tag
  let revision2 := { revision with tagIds := revision.tagIds ++ [tag.id] }
  (tag, saveRevision s1 revision2)

/-- The `createTag` resolver: resolve the target Revision (or fail with
`revisionFailed`), gate on create access against the Revision's
organization, reject `type = PLACEMENT` together with `auto_load = true`,
then build and persist the Tag skeleton. -/
def createTag (ctx : CTX) (s : Store) (data : TagCreateInput) :
    Except GQLError Tag × Store :=
  match findRevisionById s data.revision_id with
  | none => (Except.error GQLError.revisionFailed, s)
  | some revision =>
    asUserWithAccess ctx.createOrgs revision.orgId s (fun s =>
      if data.type = TagType.PLACEMENT ∧ data.auto_load = true then
        (Except.error GQLError.autoLoadPlacement, s)
      else
        let r := createTagSkeleton s revision data.name data.type
          data.width data.height data.auto_load
        (Except.ok r.1, r.2))

/-- A finite sequence of successful `duplicateTag` operations starting from
the tag identified by `tagId`: each step duplicates the tag produced by the
previous step under the next supplied name; `none` when the starting tag is
absent or any step fails. -/
def dupChain (ctx : CTX) : Store → ObjectId → List String → Option (Tag × Store)
  | s, tagId, [] => (findTagById s tagId).map (fun t => (t, s))
  | s, tagId, name :: names =>
    match duplicateTag ctx s tagId name with
    | (Except.ok d, s2) => dupChain ctx s2 d.id names
    | (Except.error _, _) => none

/-- A `HEAD` tag with two distinct linked rule groups, used as concrete
input by the witnesses below. -/
def exTag : Tag :=
  { id := 10
    orgId := 1
    name := "head tag"
    tagCode := "tc"
    revisionId := 20
    type := TagType.HEAD
    ruleGroupIds := [5, 6]
    width := 0
    height := 0
    autoLoad := false
    isActive := true }

/-- A `PLACEMENT` tag in the same revision. -/
def exPlacementTag : Tag :=
  { id := 11
    orgId := 1
    name := "placement tag"
    tagCode := "tp"
    revisionId := 20
    type := TagType.PLACEMENT
    ruleGroupIds := []
    width := 300
    height := 250
    autoLoad := false
    isActive := true }

/-- A tag whose `revisionId` resolves to no stored revision. -/
def exDanglingTag : Tag :=
  { id := 12
    orgId := 1
    name := "dangling tag"
    tagCode := "td"
    revisionId := 99
    type := TagType.HEAD
    ruleGroupIds := []
    width := 0
    height := 0
    autoLoad := false
    isActive := true }

/-- A tag whose `ruleGroupIds` hold a duplicated id. -/
def dupTag : Tag :=
  { id := 13
    orgId := 1
    name := "duplicate rule group ids"
    tagCode := "tq"
    revisionId := 20
    type := TagType.HEAD
    ruleGroupIds := [5, 5]
    width := 0
    height := 0
    autoLoad := false
    isActive := true }

/-- The revision holding the example tags. -/
def exRev : Revision :=
  { id := 20, orgId := 1, tagIds := [10, 11, 13] }

/-- The example store. -/
def exStore : Store :=
  { tags := [exTag, exPlacementTag, exDanglingTag, dupTag]
    revisions := [exRev]
    ruleGroups := [{ id := 5, orgId := 1 }, { id := 6, orgId := 1 }]
    nextId := 100 }

/-- A session granted every capability on organization 1. -/
def exCtx : CTX :=
  { viewOrgs := [1], createOrgs := [1], editOrgs := [1], deleteOrgs := [1] }

/-- A session granted no capability at all. -/
def noAccessCtx : CTX :=
  { viewOrgs := [], createOrgs := [], editOrgs := [], deleteOrgs := [] }

/-- A `createTag` payload asking for a `PLACEMENT` tag with `auto_load`. -/
def exCreateAuto : TagCreateInput :=
  { revision_id := 20
    name := "bad placement"
    type := TagType.PLACEMENT
    width := 1
    height := 1
    auto_load := true }

/-- An `updateTag` payload switching `auto_load` on, aimed at the stored
`PLACEMENT` tag. -/
def exUpdateAuto : TagUpdateInput :=
  { tag_id := 11
    name := none
    is_active := none
    width := none
    height := none
    auto_load := some true
    type := none
    tag_code := none
    revision_id := none
    rule_group_ids := none }

/-- An `updateTag` payload with every optional field present, including the
fields outside the allow-list that must be ignored. -/
def exUpdateFull : TagUpdateInput :=
  { tag_id := 10
    name := some "renamed"
    is_active := some false
    width := some 7
    height := some 9
    auto_load := some true
    type := some TagType.PLACEMENT
    tag_code := some "evil"
    revision_id := some 77
    rule_group_ids := some [9] }

/-- A valid `createTag` payload for a `HEAD` tag in revision 20. -/
def exCreateHead : TagCreateInput :=
  { revision_id := 20
    name := "new head"
    type := TagType.HEAD
    width := 0
    height := 0
    auto_load := false }

/-- Two stores agree on tag codes when any tag id resolving in both
resolves to the same `tagCode`. -/
def TagCodePreserved (s s2 : Store) : Prop :=
  ∀ (j : ObjectId) (t t2 : Tag),
    findTagById s j = some t → findTagById s2 j = some t2 →
    t2.tagCode = t.tagCode

/-- The concrete duplicate-of-a-duplicate of tag 10 (two chained
`duplicateTag` calls). -/
def exDup : Tag × Store :=
  (dupChain exCtx exStore 10 ["copy one", "copy two"]).getD (exTag, exStore)

/-- A successful Tag lookup returns a tag carrying the queried id. -/
theorem findTagById_id {s : Store} {i : ObjectId} {t : Tag}
    (h : findTagById s i = some t) : t.id = i := by
  have := List.find?_some h
  simpa using this

/-- A successful Revision lookup returns a revision carrying the queried id. -/
theorem findRevisionById_id {s : Store} {i : ObjectId} {r : Revision}
    (h : findRevisionById s i = some r) : r.id = i := by
  have := List.find?_some h
  simpa using this

/-- Looking a tag up by its own id right after upserting it finds it. -/
theorem find_upsertTag_self (l : List Tag) (t : Tag) :
    (upsertTag l t).find? (fun u => u.id == t.id) = some t := by
  induction l with
  | nil => simp [upsertTag]
  | cons u us ih =>
    by_cases h : u.id = t.id
    · simp [upsertTag, h]
    · simp [upsertTag, h, List.find?, ih]

/-- Upserting a tag does not change lookups under a different id. -/
theorem find_upsertTag_other (l : List Tag) (t : Tag) (i : ObjectId)
    (hne : i ≠ t.id) :
    (upsertTag l t).find? (fun u => u.id == i) = l.find? (fun u => u.id == i) := by
  have hb : (t.id == i) = false := beq_eq_false_iff_ne.mpr (fun h => hne h.symm)
  induction l with
  | nil => simp [upsertTag, List.find?, hb]
  | cons u us ih =>
    by_cases h : u.id = t.id
    · simp [upsertTag, h, List.find?, hb]
    · have hcond : (u.id == t.id) = false := beq_eq_false_iff_ne.mpr h
      by_cases h2 : u.id = i
      · have hb2 : (u.id == i) = true := beq_iff_eq.mpr h2
        simp [upsertTag, hcond, List.find?, hb2]
      · have hb2 : (u.id == i) = false := beq_eq_false_iff_ne.mpr h2
        simp [upsertTag, hcond, List.find?, hb2, ih]

/-- `saveTag` then lookup by the saved id yields the saved tag. -/
theorem findTagById_saveTag (s : Store) (t : Tag) :
    findTagById (saveTag s t) t.id = some t := by
  simp [findTagById, saveTag, find_upsertTag_self]

/-- `saveTag` leaves lookups under other ids unchanged. -/
theorem findTagById_saveTag_other (s : Store) (t : Tag) (i : ObjectId)
    (hne : i ≠ t.id) : findTagById (saveTag s t) i = findTagById s i := by
  simp [findTagById, saveTag, find_upsertTag_other _ _ _ hne]

/-- Looking a revision up by its own id right after upserting it finds it. -/
theorem find_upsertRevision_self (l : List Revision) (r : Revision) :
    (upsertRevision l r).find? (fun q => q.id == r.id) = some r := by
  induction l with
  | nil => simp [upsertRevision]
  | cons q qs ih =>
    by_cases h : q.id = r.id
    · simp [upsertRevision, h]
    · simp [upsertRevision, h, List.find?, ih]

/-- Upserting a revision does not change lookups under a different id. -/
theorem find_upsertRevision_other (l : List Revision) (r : Revision)
    (i : ObjectId) (hne : i ≠ r.id) :
    (upsertRevision l r).find? (fun q => q.id == i) =
      l.find? (fun q => q.id == i) := by
  have hb : (r.id == i) = false := beq_eq_false_iff_ne.mpr (fun h => hne h.symm)
  induction l with
  | nil => simp [upsertRevision, List.find?, hb]
  | cons q qs ih =>
    by_cases h : q.id = r.id
    · simp [upsertRevision, h, List.find?, hb]
    · have hcond : (q.id == r.id) = false := beq_eq_false_iff_ne.mpr h
      by_cases h2 : q.id = i
      · have hb2 : (q.id == i) = true := beq_iff_eq.mpr h2
        simp [upsertRevision, hcond, List.find?, hb2]
      · have hb2 : (q.id == i) = false := beq_eq_false_iff_ne.mpr h2
        simp [upsertRevision, hcond, List.find?, hb2, ih]

/-- `saveRevision` then lookup by the saved id yields the saved revision. -/
theorem findRevisionById_saveRevision (s : Store) (r : Revision) :
    findRevisionById (saveRevision s r) r.id = some r := by
  simp [findRevisionById, saveRevision, find_upsertRevision_self]

/-- `saveRevision` leaves lookups under other ids unchanged. -/
theorem findRevisionById_saveRevision_other (s : Store) (r : Revision)
    (i : ObjectId) (hne : i ≠ r.id) :
    findRevisionById (saveRevision s r) i = findRevisionById s i := by
  simp [findRevisionById, saveRevision, find_upsertRevision_other _ _ _ hne]

/-- `saveTag` does not touch the revisions collection. -/
theorem findRevisionById_saveTag (s : Store) (t : Tag) (i : ObjectId) :
    findRevisionById (saveTag s t) i = findRevisionById s i := by
  simp [findRevisionById, saveTag]

/-- `saveRevision` does not touch the tags collection. -/
theorem findTagById_saveRevision (s : Store) (r : Revision) (i : ObjectId) :
    findTagById (saveRevision s r) i = findTagById s i := by
  simp [findTagById, saveRevision]


/-- Once the Tag is resolved and edit access granted, the reorder resolver
is exactly its validation-guarded save. -/
theorem updateRuleGroupsOrder_spec (ctx : CTX) (s : Store) (i : ObjectId)
    (t : Tag) (new_order : List ObjectId)
    (hfind : findTagById s i = some t) (hacc : t.orgId ∈ ctx.editOrgs) :
    updateRuleGroupsOrder ctx s i new_order =
      if t.ruleGroupIds.length = new_order.length ∧
          ∀ j ∈ t.ruleGroupIds, j ∈ new_order then
        (Except.ok true, saveTag s { t with ruleGroupIds := new_order })
      else
        (Except.error GQLError.reOrderProblem, s) := by
  unfold updateRuleGroupsOrder
  rw [hfind]
  simp [asUserWithAccess, hacc]

/-- Claim C1 counterexample: on the stored tag whose current `ruleGroupIds`
are `[5, 5]`, `updateRuleGroupsOrder` accepts `[5, 6]` — which is not a
permutation of `[5, 5]` — and installs it verbatim, so the claim as stated
fails. -/
theorem updateRuleGroupsOrder_not_perm_check :
    findTagById exStore 13 = some dupTag ∧
    dupTag.ruleGroupIds = [5, 5] ∧
    updateRuleGroupsOrder exCtx exStore 13 [5, 6] =
      (Except.ok true, saveTag exStore { dupTag with ruleGroupIds := [5, 6] }) ∧
    ¬ List.Perm ([5, 6] : List ObjectId) dupTag.ruleGroupIds := by
  refine ⟨by decide, by decide, by decide, by decide⟩

/-- Claim C1 (amended): for an existing Tag whose current `ruleGroupIds`
contain no duplicates (invariant I2), `updateRuleGroupsOrder` succeeds —
returning true and replacing the Tag's `ruleGroupIds` with `new_order`
verbatim — iff `new_order` is a permutation of the current `ruleGroupIds`;
otherwise it fails with the reorder-specific error and the store is left
unchanged. -/
theorem updateRuleGroupsOrder_perm_iff (ctx : CTX) (s : Store) (i : ObjectId)
    (t : Tag) (new_order : List ObjectId)
    (hfind : findTagById s i = some t) (hacc : t.orgId ∈ ctx.editOrgs)
    (hnd : t.ruleGroupIds.Nodup) :
    (List.Perm new_order t.ruleGroupIds →
      updateRuleGroupsOrder ctx s i new_order =
        (Except.ok true, saveTag s { t with ruleGroupIds := new_order })) ∧
    (¬ List.Perm new_order t.ruleGroupIds →
      updateRuleGroupsOrder ctx s i new_order =
        (Except.error GQLError.reOrderProblem, s)) := by
  rw [updateRuleGroupsOrder_spec ctx s i t new_order hfind hacc]
  constructor
  · intro hp
    rw [if_pos ⟨hp.length_eq.symm, fun j hj => hp.symm.subset hj⟩]
  · intro hnp
    rw [if_neg]
    rintro ⟨hlen, hsub⟩
    exact hnp
      (((hnd.subperm (fun j hj => hsub j hj)).perm_of_length_le
        (le_of_eq hlen.symm)).symm)

/-- Claim C1 witness: a concrete permutation `[6, 5]` of `[5, 6]` is
accepted and installed. -/
theorem updateRuleGroupsOrder_perm_iff_witness :
    updateRuleGroupsOrder exCtx exStore 10 [6, 5] =
      (Except.ok true, saveTag exStore { exTag with ruleGroupIds := [6, 5] }) :=
  (updateRuleGroupsOrder_perm_iff exCtx exStore 10 exTag [6, 5] (by decide)
    (by decide) (by decide)).1 (by decide)

/-- Claim C9: the reorder validation checks only the length match and the
current-to-new coverage — so on a Tag state with the duplicated
`ruleGroupIds` `[5, 5]` it accepts `[5, 6]`, which is no permutation of
`[5, 5]`, and installs the id 6 that was not previously linked. -/
theorem updateRuleGroupsOrder_coverage_only :
    (∀ (ctx : CTX) (s : Store) (i : ObjectId) (t : Tag)
        (new_order : List ObjectId),
      findTagById s i = some t → t.orgId ∈ ctx.editOrgs →
      ((updateRuleGroupsOrder ctx s i new_order).1 = Except.ok true ↔
        (t.ruleGroupIds.length = new_order.length ∧
          ∀ j ∈ t.ruleGroupIds, j ∈ new_order))) ∧
    (updateRuleGroupsOrder exCtx exStore 13 [5, 6] =
        (Except.ok true, saveTag exStore { dupTag with ruleGroupIds := [5, 6] }) ∧
      ¬ List.Perm ([5, 6] : List ObjectId) dupTag.ruleGroupIds ∧
      (6 : ObjectId) ∉ dupTag.ruleGroupIds) := by
  constructor
  · intro ctx s i t new_order hfind hacc
    rw [updateRuleGroupsOrder_spec ctx s i t new_order hfind hacc]
    by_cases hc : t.ruleGroupIds.length = new_order.length ∧
        ∀ j ∈ t.ruleGroupIds, j ∈ new_order
    · rw [if_pos hc]
      exact iff_of_true rfl hc
    · rw [if_neg hc]
      simp [hc]
  · exact ⟨by decide, by decide, by decide⟩

/-- Claim C9 witness: the validation characterization applied to the
concrete accepted reorder `[6, 5]` on tag 10. -/
theorem updateRuleGroupsOrder_coverage_only_witness :
    (updateRuleGroupsOrder exCtx exStore 10 [6, 5]).1 = Except.ok true :=
  (updateRuleGroupsOrder_coverage_only.1 exCtx exStore 10 exTag [6, 5]
    (by decide) (by decide)).mpr (by decide)

/-- Once the Tag is resolved and edit access granted, `updateTag` is
exactly its validation-guarded allow-list application. -/
theorem updateTag_spec (ctx : CTX) (s : Store) (data : TagUpdateInput)
    (t : Tag) (hfind : findTagById s data.tag_id = some t)
    (hacc : t.orgId ∈ ctx.editOrgs) :
    updateTag ctx s data =
      if t.type = TagType.PLACEMENT ∧ data.auto_load = some true then
        (Except.error GQLError.autoLoadPlacement, s)
      else
        (Except.ok true, saveTag s (bulkGQLSet t data)) := by
  unfold updateTag
  rw [hfind]
  simp [asUserWithAccess, hacc]

/-- Once the Revision is resolved and create access granted, `createTag`
is exactly its validation-guarded skeleton creation. -/
theorem createTag_spec (ctx : CTX) (s : Store) (data : TagCreateInput)
    (rev : Revision) (hrev : findRevisionById s data.revision_id = some rev)
    (hacc : rev.orgId ∈ ctx.createOrgs) :
    createTag ctx s data =
      if data.type = TagType.PLACEMENT ∧ data.auto_load = true then
        (Except.error GQLError.autoLoadPlacement, s)
      else
        (Except.ok (createTagSkeleton s rev data.name data.type data.width
            data.height data.auto_load).1,
          (createTagSkeleton s rev data.name data.type data.width
            data.height data.auto_load).2) := by
  unfold createTag
  rw [hrev]
  simp [asUserWithAccess, hacc]


/-- Claim C2: both `createTag` and `updateTag` reject, with the
auto-load/placement validation error and an unchanged store, any request
whose resulting state would combine `type = PLACEMENT` with
`autoLoad = true`; `updateTag` checks the incoming `auto_load = true`
against the Tag's existing type. -/
theorem placement_autoload_rejected :
    (∀ (ctx : CTX) (s : Store) (data : TagUpdateInput) (t : Tag),
      findTagById s data.tag_id = some t → t.orgId ∈ ctx.editOrgs →
      t.type = TagType.PLACEMENT → data.auto_load = some true →
      updateTag ctx s data = (Except.error GQLError.autoLoadPlacement, s)) ∧
    (∀ (ctx : CTX) (s : Store) (data : TagCreateInput) (rev : Revision),
      findRevisionById s data.revision_id = some rev →
      rev.orgId ∈ ctx.createOrgs →
      data.type = TagType.PLACEMENT → data.auto_load = true →
      createTag ctx s data = (Except.error GQLError.autoLoadPlacement, s)) := by
  constructor
  · intro ctx s data t hfind hacc hty hal
    rw [updateTag_spec ctx s data t hfind hacc, if_pos ⟨hty, hal⟩]
  · intro ctx s data rev hrev hacc hty hal
    rw [createTag_spec ctx s data rev hrev hacc, if_pos ⟨hty, hal⟩]

/-- Claim C2 witness: the concrete placement/auto-load payloads are both
rejected with the validation error and the example store is unchanged. -/
theorem placement_autoload_rejected_witness :
    updateTag exCtx exStore exUpdateAuto =
      (Except.error GQLError.autoLoadPlacement, exStore) ∧
    createTag exCtx exStore exCreateAuto =
      (Except.error GQLError.autoLoadPlacement, exStore) :=
  ⟨placement_autoload_rejected.1 exCtx exStore exUpdateAuto exPlacementTag
      (by decide) (by decide) (by decide) (by decide),
    placement_autoload_rejected.2 exCtx exStore exCreateAuto exRev
      (by decide) (by decide) (by decide) (by decide)⟩

/-- Claim C4 counterexample: a caller without create access submitting
`type = PLACEMENT` with `auto_load = true` receives the authorization
denial, not the validation error — the validation check does not execute
before the create-capability check is confirmed. -/
theorem createTag_no_access_counterexample :
    exCreateAuto.type = TagType.PLACEMENT ∧ exCreateAuto.auto_load = true ∧
    createTag noAccessCtx exStore exCreateAuto =
      (Except.error GQLError.authDenied, exStore) ∧
    GQLError.authDenied ≠ GQLError.autoLoadPlacement := by
  refine ⟨by decide, by decide, by decide, by decide⟩

/-- Claim C4 (amended): for `createTag` the authorization check is
confirmed before the PLACEMENT/auto-load validation check executes: a
caller who lacks create access and submits `type = PLACEMENT` with
`auto_load = true` receives the authorization denial, not the validation
error, while a caller with create access receives the validation error —
and in both cases no persistence occurs. -/
theorem createTag_auth_before_validation (ctx : CTX) (s : Store)
    (data : TagCreateInput) (rev : Revision)
    (hrev : findRevisionById s data.revision_id = some rev) :
    (rev.orgId ∉ ctx.createOrgs →
      createTag ctx s data = (Except.error GQLError.authDenied, s)) ∧
    (rev.orgId ∈ ctx.createOrgs →
      data.type = TagType.PLACEMENT → data.auto_load = true →
      createTag ctx s data = (Except.error GQLError.autoLoadPlacement, s)) := by
  constructor
  · intro hno
    unfold createTag
    rw [hrev]
    simp [asUserWithAccess, hno]
  · intro hacc hty hal
    rw [createTag_spec ctx s data rev hrev hacc, if_pos ⟨hty, hal⟩]

/-- Claim C4 witness: the amended ordering at the concrete payload — the
capability-less session is denied, the capable one gets the validation
error. -/
theorem createTag_auth_before_validation_witness :
    createTag noAccessCtx exStore exCreateAuto =
      (Except.error GQLError.authDenied, exStore) ∧
    createTag exCtx exStore exCreateAuto =
      (Except.error GQLError.autoLoadPlacement, exStore) :=
  ⟨(createTag_auth_before_validation noAccessCtx exStore exCreateAuto exRev
      (by decide)).1 (by decide),
    (createTag_auth_before_validation exCtx exStore exCreateAuto exRev
      (by decide)).2 (by decide) (by decide) (by decide)⟩

/-- The acknowledgement list of the cascade depends only on the Tag (the
preview flag picks real or simulated execution, not the list). -/
theorem deleteModelCascading_fst (s : Store) (t : Tag) (p : Bool) :
    (deleteModelCascading s t p).1 =
      { modelId := t.id, model := "Tag" } ::
        t.ruleGroupIds.map (fun j => { modelId := j, model := "RuleGroup" }) := by
  cases p <;> rfl

/-- The cascade never touches the revisions collection. -/
theorem deleteModelCascading_revisions (s : Store) (t : Tag) (p : Bool)
    (i : ObjectId) :
    findRevisionById (deleteModelCascading s t p).2 i = findRevisionById s i := by
  cases p <;> rfl

/-- Once the Tag is resolved and delete access granted, a non-preview
`deleteTag` on a resolvable Revision is exactly: save the unlinked
Revision first, then run the cascade (which may fail). -/
theorem deleteTag_spec (ctx : CTX) (s : Store) (i : ObjectId) (t : Tag)
    (rev : Revision) (co : Bool)
    (hfind : findTagById s i = some t) (hacc : t.orgId ∈ ctx.deleteOrgs)
    (hrev : findRevisionById s t.revisionId = some rev) :
    deleteTag ctx s i false co =
      (let s1 := saveRevision s
        { rev with tagIds := rev.tagIds.filter (fun j => j != t.id) }
       if co then
         (Except.ok (deleteModelCascading s1 t false).1,
           (deleteModelCascading s1 t false).2)
       else
         (Except.error GQLError.cascadeFailure, s1)) := by
  unfold deleteTag
  rw [hfind]
  simp [asUserWithAccess, hacc, hrev]

/-- Once the Tag is resolved and delete access granted, a preview
`deleteTag` returns the simulated acknowledgements and the store untouched,
without consulting the revisions collection. -/
theorem deleteTag_preview_spec (ctx : CTX) (s : Store) (i : ObjectId)
    (t : Tag) (co : Bool)
    (hfind : findTagById s i = some t) (hacc : t.orgId ∈ ctx.deleteOrgs) :
    deleteTag ctx s i true co =
      (Except.ok (deleteModelCascading s t true).1, s) := by
  unfold deleteTag
  rw [hfind]
  simp [asUserWithAccess, hacc, deleteModelCascading]

/-- Claim C3: in a non-preview `deleteTag` the Revision unlink is persisted
strictly before the cascade runs — whatever the cascade's outcome
(`cascadeOk` injects a mid-cascade failure), the Tag's former Revision in
the resulting store no longer lists the Tag's id. -/
theorem deleteTag_unlinks_before_cascade (ctx : CTX) (s : Store)
    (i : ObjectId) (t : Tag) (rev : Revision) (cascadeOk : Bool)
    (hfind : findTagById s i = some t) (hacc : t.orgId ∈ ctx.deleteOrgs)
    (hrev : findRevisionById s t.revisionId = some rev) :
    ∃ rev2,
      findRevisionById (deleteTag ctx s i false cascadeOk).2 t.revisionId =
        some rev2 ∧
      t.id ∉ rev2.tagIds := by
  rw [deleteTag_spec ctx s i t rev cascadeOk hfind hacc hrev]
  have hid : rev.id = t.revisionId := findRevisionById_id hrev
  refine ⟨{ rev with tagIds := rev.tagIds.filter (fun j => j != t.id) }, ?_, ?_⟩
  · cases cascadeOk <;>
      simp [deleteModelCascading_revisions, ← hid, findRevisionById_saveRevision]
  · simp [List.mem_filter]

/-- Claim C3 witness: deleting tag 10 with a failing cascade still leaves
revision 20 without the id 10. -/
theorem deleteTag_unlinks_before_cascade_witness :
    ∃ rev2,
      findRevisionById (deleteTag exCtx exStore 10 false false).2
        exTag.revisionId = some rev2 ∧
      exTag.id ∉ rev2.tagIds :=
  deleteTag_unlinks_before_cascade exCtx exStore 10 exTag exRev false
    (by decide) (by decide) (by decide)

/-- Claim C5: a preview `deleteTag` on an existing Tag whose Revision
resolves leaves the store byte-for-byte unchanged and returns the same
acknowledgement sequence a successful non-preview delete returns. -/
theorem deleteTag_preview_noop (ctx : CTX) (s : Store) (i : ObjectId)
    (t : Tag) (rev : Revision) (co : Bool)
    (hfind : findTagById s i = some t) (hacc : t.orgId ∈ ctx.deleteOrgs)
    (hrev : findRevisionById s t.revisionId = some rev) :
    (deleteTag ctx s i true co).2 = s ∧
    (deleteTag ctx s i true co).1 = (deleteTag ctx s i false true).1 := by
  rw [deleteTag_preview_spec ctx s i t co hfind hacc,
    deleteTag_spec ctx s i t rev true hfind hacc hrev]
  exact ⟨rfl, by simp [deleteModelCascading_fst]⟩

/-- Claim C5 witness: previewing the delete of tag 10 changes nothing and
acknowledges exactly what the real delete acknowledges. -/
theorem deleteTag_preview_noop_witness :
    (deleteTag exCtx exStore 10 true false).2 = exStore ∧
    (deleteTag exCtx exStore 10 true false).1 =
      (deleteTag exCtx exStore 10 false true).1 :=
  deleteTag_preview_noop exCtx exStore 10 exTag exRev false
    (by decide) (by decide) (by decide)

/-- Claim C10: a preview `deleteTag` never resolves the Tag's Revision — it
succeeds with simulated acknowledgements even when `revisionId` dangles,
while the same non-preview call fails with the Revision not-found error
before deleting anything. -/
theorem deleteTag_preview_skips_revision (ctx : CTX) (s : Store)
    (i : ObjectId) (t : Tag) (co : Bool)
    (hfind : findTagById s i = some t) (hacc : t.orgId ∈ ctx.deleteOrgs)
    (hrev : findRevisionById s t.revisionId = none) :
    deleteTag ctx s i true co =
      (Except.ok (deleteModelCascading s t true).1, s) ∧
    deleteTag ctx s i false co =
      (Except.error GQLError.revisionFailed, s) := by
  constructor
  · exact deleteTag_preview_spec ctx s i t co hfind hacc
  · unfold deleteTag
    rw [hfind]
    simp [asUserWithAccess, hacc, hrev]

/-- Claim C10 witness: tag 12 carries the dangling `revisionId` 99 — its
preview delete succeeds on the unchanged store, its real delete fails with
the Revision not-found error. -/
theorem deleteTag_preview_skips_revision_witness :
    deleteTag exCtx exStore 12 true true =
      (Except.ok (deleteModelCascading exStore exDanglingTag true).1,
        exStore) ∧
    deleteTag exCtx exStore 12 false true =
      (Except.error GQLError.revisionFailed, exStore) :=
  deleteTag_preview_skips_revision exCtx exStore 12 exDanglingTag true
    (by decide) (by decide) (by decide)


/-- Claim C6: `updateTag` applies exactly the allow-listed fields present
in the payload (`name`, `is_active`, `width`, `height`, `auto_load`),
leaves absent ones at their prior values, and never changes `type`,
`tagCode`, `revisionId` or `ruleGroupIds`, whatever extra fields the
payload carries. -/
theorem updateTag_allowlist (ctx : CTX) (s : Store) (data : TagUpdateInput)
    (t : Tag) (hfind : findTagById s data.tag_id = some t)
    (hacc : t.orgId ∈ ctx.editOrgs)
    (hval : ¬ (t.type = TagType.PLACEMENT ∧ data.auto_load = some true)) :
    updateTag ctx s data = (Except.ok true, saveTag s (bulkGQLSet t data)) ∧
    findTagById (updateTag ctx s data).2 data.tag_id =
      some (bulkGQLSet t data) ∧
    (bulkGQLSet t data).type = t.type ∧
    (bulkGQLSet t data).tagCode = t.tagCode ∧
    (bulkGQLSet t data).revisionId = t.revisionId ∧
    (bulkGQLSet t data).ruleGroupIds = t.ruleGroupIds ∧
    (bulkGQLSet t data).name = data.name.getD t.name ∧
    (bulkGQLSet t data).isActive = data.is_active.getD t.isActive ∧
    (bulkGQLSet t data).width = data.width.getD t.width ∧
    (bulkGQLSet t data).height = data.height.getD t.height ∧
    (bulkGQLSet t data).autoLoad = data.auto_load.getD t.autoLoad := by
  have hspec := updateTag_spec ctx s data t hfind hacc
  rw [if_neg hval] at hspec
  refine ⟨hspec, ?_, rfl, rfl, rfl, rfl, rfl, rfl, rfl, rfl, rfl⟩
  rw [hspec]
  have hid0 : t.id = data.tag_id := findTagById_id hfind
  have hid : (bulkGQLSet t data).id = data.tag_id := hid0
  rw [← hid]
  exact findTagById_saveTag s (bulkGQLSet t data)

/-- Claim C6 witness: the full concrete payload is applied to tag 10,
leaving its `tagCode` (and the other immutable fields) untouched. -/
theorem updateTag_allowlist_witness :
    updateTag exCtx exStore exUpdateFull =
      (Except.ok true, saveTag exStore (bulkGQLSet exTag exUpdateFull)) ∧
    (bulkGQLSet exTag exUpdateFull).tagCode = exTag.tagCode := by
  have h := updateTag_allowlist exCtx exStore exUpdateFull exTag
    (by decide) (by decide) (by decide)
  exact ⟨h.1, h.2.2.2.1⟩

/-- Once the source Tag is resolved, create access granted and its Revision
resolved, `duplicateTag` is exactly: branch a new tag, save the extended
Revision, rename and save the duplicate. -/
theorem duplicateTag_spec (ctx : CTX) (s : Store) (i : ObjectId)
    (nm : String) (t : Tag) (rev : Revision)
    (hfind : findTagById s i = some t) (hacc : t.orgId ∈ ctx.createOrgs)
    (hrev : findRevisionById s t.revisionId = some rev) :
    duplicateTag ctx s i nm =
      (Except.ok { t with id := s.nextId, name := nm },
        saveTag
          (saveRevision
            (saveTag { s with nextId := s.nextId + 1 } { t with id := s.nextId })
            { rev with tagIds := rev.tagIds ++ [s.nextId] })
          { t with id := s.nextId, name := nm }) := by
  unfold duplicateTag
  rw [hfind]
  simp [asUserWithAccess, hacc, hrev, createNewModelBranchFromModel]

/-- Claim C8: after a successful `createTag` or `duplicateTag`, the
returned Tag's id is a member of the target Revision's `tagIds` and the
returned Tag's `revisionId` equals that Revision's id; for `duplicateTag`
the Revision moreover keeps the source Tag's id. -/
theorem create_duplicate_link_consistency :
    (∀ (ctx : CTX) (s : Store) (data : TagCreateInput) (rev : Revision),
      findRevisionById s data.revision_id = some rev →
      rev.orgId ∈ ctx.createOrgs →
      ¬ (data.type = TagType.PLACEMENT ∧ data.auto_load = true) →
      ∃ tag s2 rev2, createTag ctx s data = (Except.ok tag, s2) ∧
        tag.revisionId = rev.id ∧
        findRevisionById s2 tag.revisionId = some rev2 ∧
        tag.id ∈ rev2.tagIds) ∧
    (∀ (ctx : CTX) (s : Store) (i : ObjectId) (nm : String) (t : Tag)
        (rev : Revision),
      findTagById s i = some t → t.orgId ∈ ctx.createOrgs →
      findRevisionById s t.revisionId = some rev →
      ∃ d s2 rev2, duplicateTag ctx s i nm = (Except.ok d, s2) ∧
        d.revisionId = rev.id ∧
        findRevisionById s2 d.revisionId = some rev2 ∧
        d.id ∈ rev2.tagIds ∧
        (t.id ∈ rev.tagIds → t.id ∈ rev2.tagIds)) := by
  constructor
  · intro ctx s data rev hrev hacc hval
    have hspec := createTag_spec ctx s data rev hrev hacc
    rw [if_neg hval] at hspec
    refine ⟨_, _, { rev with tagIds := rev.tagIds ++ [s.nextId] }, hspec,
      rfl, ?_, by simp [createTagSkeleton]⟩
    show findRevisionById
        (saveRevision _ { rev with tagIds := rev.tagIds ++ [s.nextId] })
        rev.id = some { rev with tagIds := rev.tagIds ++ [s.nextId] }
    exact findRevisionById_saveRevision _ _
  · intro ctx s i nm t rev hfind hacc hrev
    have hid : rev.id = t.revisionId := findRevisionById_id hrev
    have hspec := duplicateTag_spec ctx s i nm t rev hfind hacc hrev
    refine ⟨_, _, { rev with tagIds := rev.tagIds ++ [s.nextId] }, hspec,
      hid.symm, ?_, by simp, fun h => by simp [h]⟩
    rw [findRevisionById_saveTag]
    have hsave := findRevisionById_saveRevision
      (saveTag { s with nextId := s.nextId + 1 } { t with id := s.nextId })
      { rev with tagIds := rev.tagIds ++ [s.nextId] }
    simpa [← hid] using hsave


/-- Claim C8 witness: the concrete create and duplicate both land in
revision 20 with consistent dual bookkeeping. -/
theorem create_duplicate_link_consistency_witness :
    (∃ tag s2 rev2,
      createTag exCtx exStore exCreateHead = (Except.ok tag, s2) ∧
      tag.revisionId = exRev.id ∧
      findRevisionById s2 tag.revisionId = some rev2 ∧
      tag.id ∈ rev2.tagIds) ∧
    (∃ d s2 rev2,
      duplicateTag exCtx exStore 10 "copy" = (Except.ok d, s2) ∧
      d.revisionId = exRev.id ∧
      findRevisionById s2 d.revisionId = some rev2 ∧
      d.id ∈ rev2.tagIds ∧
      (exTag.id ∈ exRev.tagIds → exTag.id ∈ rev2.tagIds)) :=
  ⟨create_duplicate_link_consistency.1 exCtx exStore exCreateHead exRev
      (by decide) (by decide) (by decide),
    create_duplicate_link_consistency.2 exCtx exStore 10 "copy" exTag exRev
      (by decide) (by decide) (by decide)⟩

/-- Filtering away only elements the search predicate rejects does not
change the result of `find?`. -/
theorem find?_filter_of_imp {α : Type} (l : List α) (p q : α → Bool)
    (himp : ∀ u, p u = true → q u = true) :
    (l.filter q).find? p = l.find? p := by
  induction l with
  | nil => rfl
  | cons u us ih =>
    cases hq : q u with
    | false =>
      have hp : p u = false := by
        cases hpu : p u
        · rfl
        · exact absurd (himp u hpu) (by simp [hq])
      simp [List.filter_cons, hq, List.find?_cons, hp, ih]
    | true =>
      cases hpu : p u with
      | false => simp [List.filter_cons, hq, List.find?_cons, hpu, ih]
      | true => simp [List.filter_cons, hq, List.find?_cons, hpu]

/-- A resolved tag is a member of the tags collection. -/
theorem findTagById_mem {s : Store} {i : ObjectId} {t : Tag}
    (h : findTagById s i = some t) : t ∈ s.tags :=
  List.mem_of_find?_eq_some h

/-- A store preserves its own tag codes. -/
theorem tagCodePreserved_refl (s : Store) : TagCodePreserved s s := by
  intro j t t2 h1 h2
  rw [h1] at h2
  cases h2
  rfl

/-- Saving a tag whose code agrees with the stored tag of the same id
preserves all tag codes. -/
theorem tagCodePreserved_saveTag (s : Store) (t1 : Tag)
    (h : ∀ t0, findTagById s t1.id = some t0 → t1.tagCode = t0.tagCode) :
    TagCodePreserved s (saveTag s t1) := by
  intro j t t2 h1 h2
  by_cases hj : j = t1.id
  · subst hj
    rw [findTagById_saveTag] at h2
    cases h2
    exact h t h1
  · rw [findTagById_saveTag_other s t1 j hj] at h2
    rw [h1] at h2
    cases h2
    rfl

/-- A tag resolving after the destructive cascade resolved to the same
document before it. -/
theorem findTagById_cascade (x : Store) (t : Tag) (j : ObjectId) (t2 : Tag)
    (h : findTagById (deleteModelCascading x t false).2 j = some t2) :
    findTagById x j = some t2 := by
  have h2 : (x.tags.filter (fun u => u.id != t.id)).find? (fun u => u.id == j) =
      some t2 := h
  by_cases hj : j = t.id
  · exfalso
    subst hj
    have hne := (List.mem_filter.mp (List.mem_of_find?_eq_some h2)).2
    have heq : t2.id = t.id := by simpa using List.find?_some h2
    simp [heq] at hne
  · have himp : ∀ u : Tag, (u.id == j) = true → (u.id != t.id) = true := by
      intro u hu
      have hu2 : u.id = j := by simpa using hu
      simp [hu2, hj]
    rw [find?_filter_of_imp x.tags _ _ himp] at h2
    exact h2

/-- Saving a freshly allocated tag (id = `nextId`) and then a revision
preserves the tag codes of a store whose tags all have smaller ids. -/
theorem tagCodePreserved_fresh_save (s : Store) (t1 : Tag) (r : Revision)
    (hfresh : ∀ u ∈ s.tags, u.id < s.nextId) (hid : t1.id = s.nextId) :
    TagCodePreserved s
      (saveRevision (saveTag { s with nextId := s.nextId + 1 } t1) r) := by
  intro j t t2 h1 h2
  rw [findTagById_saveRevision] at h2
  by_cases hj : j = t1.id
  · exfalso
    have hlt := hfresh t (findTagById_mem h1)
    rw [findTagById_id h1, hj, hid] at hlt
    exact lt_irrefl _ hlt
  · rw [findTagById_saveTag_other _ t1 j hj] at h2
    have hnx : findTagById { s with nextId := s.nextId + 1 } j =
        findTagById s j := rfl
    rw [hnx, h1] at h2
    cases h2
    rfl

/-- The store shape produced by a successful duplicate — fresh branch save,
revision save, duplicate save — preserves the tag codes of a store whose
tags all have smaller ids. -/
theorem tagCodePreserved_dup_save (s : Store) (t1 d : Tag) (r : Revision)
    (hfresh : ∀ u ∈ s.tags, u.id < s.nextId)
    (hid1 : t1.id = s.nextId) (hidd : d.id = s.nextId) :
    TagCodePreserved s
      (saveTag (saveRevision (saveTag { s with nextId := s.nextId + 1 } t1) r)
        d) := by
  intro j t t2 h1 h2
  by_cases hj : j = d.id
  · exfalso
    have hlt := hfresh t (findTagById_mem h1)
    rw [findTagById_id h1, hj, hidd] at hlt
    exact lt_irrefl _ hlt
  · rw [findTagById_saveTag_other _ d j hj] at h2
    exact tagCodePreserved_fresh_save s t1 r hfresh hid1 j t t2 h1 h2

/-- The store `updateTag` leaves behind is either untouched or a single
allow-list save of the resolved tag. -/
theorem updateTag_snd (ctx : CTX) (s : Store) (data : TagUpdateInput) :
    (updateTag ctx s data).2 = s ∨
    ∃ t, findTagById s data.tag_id = some t ∧
      (updateTag ctx s data).2 = saveTag s (bulkGQLSet t data) := by
  unfold updateTag asUserWithAccess
  cases hfind : findTagById s data.tag_id with
  | none => simp
  | some t =>
    by_cases hacc : t.orgId ∈ ctx.editOrgs
    · by_cases hval : t.type = TagType.PLACEMENT ∧ data.auto_load = some true
      · simp [hacc, hval]
      · simp only [hacc, if_true, if_pos, hval, if_neg, not_false_iff]
        right
        exact ⟨t, rfl, rfl⟩
    · simp [hacc]

/-- The store `updateRuleGroupsOrder` leaves behind is either untouched or
a single reordered save of the resolved tag. -/
theorem updateRuleGroupsOrder_snd (ctx : CTX) (s : Store) (i : ObjectId)
    (no : List ObjectId) :
    (updateRuleGroupsOrder ctx s i no).2 = s ∨
    ∃ t, findTagById s i = some t ∧
      (updateRuleGroupsOrder ctx s i no).2 =
        saveTag s { t with ruleGroupIds := no } := by
  unfold updateRuleGroupsOrder asUserWithAccess
  cases hfind : findTagById s i with
  | none => simp
  | some t =>
    by_cases hacc : t.orgId ∈ ctx.editOrgs
    · simp only [hacc, if_true]
      by_cases hval : t.ruleGroupIds.length = no.length ∧
          ∀ j ∈ t.ruleGroupIds, j ∈ no
      · rw [if_pos hval]
        right
        exact ⟨t, rfl, rfl⟩
      · rw [if_neg hval]
        simp
    · simp [hacc]

/-- The store `deleteTag` leaves behind is untouched, a single unlink save
of a revision, or that unlink followed by the cascade of the resolved
tag. -/
theorem deleteTag_snd (ctx : CTX) (s : Store) (i : ObjectId) (p co : Bool) :
    (deleteTag ctx s i p co).2 = s ∨
    (∃ r2, (deleteTag ctx s i p co).2 = saveRevision s r2) ∨
    (∃ t r2, findTagById s i = some t ∧
      (deleteTag ctx s i p co).2 =
        (deleteModelCascading (saveRevision s r2) t false).2) := by
  cases hfind : findTagById s i with
  | none =>
    left
    unfold deleteTag
    rw [hfind]
  | some t =>
    by_cases hacc : t.orgId ∈ ctx.deleteOrgs
    · cases p with
      | true =>
        rw [deleteTag_preview_spec ctx s i t co hfind hacc]
        left
        rfl
      | false =>
        cases hrev : findRevisionById s t.revisionId with
        | none =>
          left
          unfold deleteTag asUserWithAccess
          rw [hfind]
          simp [hacc, hrev]
        | some rev =>
          rw [deleteTag_spec ctx s i t rev co hfind hacc hrev]
          cases co with
          | false =>
            right
            left
            exact ⟨{ rev with tagIds := rev.tagIds.filter (fun j => j != t.id) },
              rfl⟩
          | true =>
            right
            right
            exact ⟨t, { rev with tagIds := rev.tagIds.filter (fun j => j != t.id) },
              rfl, rfl⟩
    · left
      unfold deleteTag asUserWithAccess
      rw [hfind]
      simp [hacc]

/-- The store `createTag` leaves behind is untouched or the skeleton's two
saves with a freshly allocated tag id. -/
theorem createTag_snd (ctx : CTX) (s : Store) (data : TagCreateInput) :
    (createTag ctx s data).2 = s ∨
    ∃ t1 r2, t1.id = s.nextId ∧
      (createTag ctx s data).2 =
        saveRevision (saveTag { s with nextId := s.nextId + 1 } t1) r2 := by
  unfold createTag asUserWithAccess createTagSkeleton
  cases hrev : findRevisionById s data.revision_id with
  | none => simp
  | some rev =>
    by_cases hacc : rev.orgId ∈ ctx.createOrgs
    · simp only [hacc, if_true]
      by_cases hval : data.type = TagType.PLACEMENT ∧ data.auto_load = true
      · rw [if_pos hval]
        simp
      · rw [if_neg hval]
        right
        exact ⟨_, _, rfl, rfl⟩
    · simp [hacc]

/-- The store `duplicateTag` leaves behind is untouched or the branch,
revision and rename saves with a freshly allocated id. -/
theorem duplicateTag_snd (ctx : CTX) (s : Store) (i : ObjectId)
    (nm : String) :
    (duplicateTag ctx s i nm).2 = s ∨
    ∃ t1 r2 d, t1.id = s.nextId ∧ d.id = s.nextId ∧
      (duplicateTag ctx s i nm).2 =
        saveTag (saveRevision (saveTag { s with nextId := s.nextId + 1 } t1) r2)
          d := by
  unfold duplicateTag asUserWithAccess createNewModelBranchFromModel
  cases hfind : findTagById s i with
  | none => simp
  | some t =>
    by_cases hacc : t.orgId ∈ ctx.createOrgs
    · simp only [hacc, if_true]
      cases hrev : findRevisionById s t.revisionId with
      | none => simp
      | some rev =>
        right
        exact ⟨{ t with id := s.nextId },
          { rev with tagIds := rev.tagIds ++ [s.nextId] },
          { t with id := s.nextId, name := nm }, rfl, rfl, rfl⟩
    · simp [hacc]

/-- Inversion of a successful `duplicateTag`: the duplicate is the source
tag under a fresh id and the new name, and it resolves in the resulting
store. -/
theorem duplicateTag_ok_inv (ctx : CTX) (s : Store) (i : ObjectId)
    (nm : String) (t d : Tag) (s2 : Store)
    (hfind : findTagById s i = some t)
    (hok : duplicateTag ctx s i nm = (Except.ok d, s2)) :
    d = { t with id := s.nextId, name := nm } ∧
    findTagById s2 d.id = some d := by
  by_cases hacc : t.orgId ∈ ctx.createOrgs
  · cases hrev : findRevisionById s t.revisionId with
    | none =>
      exfalso
      unfold duplicateTag asUserWithAccess at hok
      rw [hfind] at hok
      simp [hacc, hrev] at hok
    | some rev =>
      rw [duplicateTag_spec ctx s i nm t rev hfind hacc hrev] at hok
      have hd : ({ t with id := s.nextId, name := nm } : Tag) = d :=
        congrArg Prod.fst hok |> Except.ok.inj
      have hs : s2 = saveTag
          (saveRevision
            (saveTag { s with nextId := s.nextId + 1 } { t with id := s.nextId })
            { rev with tagIds := rev.tagIds ++ [s.nextId] })
          { t with id := s.nextId, name := nm } :=
        (congrArg Prod.snd hok).symm
      refine ⟨hd.symm, ?_⟩
      rw [hs, ← hd]
      exact findTagById_saveTag _ _
  · exfalso
    unfold duplicateTag asUserWithAccess at hok
    rw [hfind] at hok
    simp [hacc] at hok

/-- Every duplicate in a chain of successful duplicates carries the tag
code of the chain's root. -/
theorem dupChain_tagCode (ctx : CTX) :
    ∀ (names : List String) (s : Store) (i : ObjectId) (t d : Tag)
      (s2 : Store),
      findTagById s i = some t → dupChain ctx s i names = some (d, s2) →
      d.tagCode = t.tagCode := by
  intro names
  induction names with
  | nil =>
    intro s i t d s2 hfind hchain
    unfold dupChain at hchain
    rw [hfind] at hchain
    simp at hchain
    rw [← hchain.1]
  | cons nm names ih =>
    intro s i t d s2 hfind hchain
    unfold dupChain at hchain
    cases hdup : duplicateTag ctx s i nm with
    | mk res s3 =>
      rw [hdup] at hchain
      cases res with
      | error e => simp at hchain
      | ok d1 =>
        have hinv := duplicateTag_ok_inv ctx s i nm t d1 s3 hfind hdup
        have hrest : dupChain ctx s3 d1.id names = some (d, s2) := hchain
        have hcode : d.tagCode = d1.tagCode :=
          ih s3 d1.id d1 d s2 hinv.2 hrest
        rw [hcode, hinv.1]

/-- Claim C7: every descendant of a Tag under any finite sequence of
successful `duplicateTag` operations carries the original `tagCode`, and no
operation of this core — update, reorder, delete, create or duplicate —
ever mutates the `tagCode` of a stored Tag (for create and duplicate the
store's id counter is assumed fresh, so the new id cannot collide). -/
theorem tagCode_stable :
    (∀ (ctx : CTX) (names : List String) (s : Store) (i : ObjectId)
        (t d : Tag) (s2 : Store),
      findTagById s i = some t → dupChain ctx s i names = some (d, s2) →
      d.tagCode = t.tagCode) ∧
    (∀ (ctx : CTX) (s : Store) (data : TagUpdateInput),
      TagCodePreserved s (updateTag ctx s data).2) ∧
    (∀ (ctx : CTX) (s : Store) (i : ObjectId) (no : List ObjectId),
      TagCodePreserved s (updateRuleGroupsOrder ctx s i no).2) ∧
    (∀ (ctx : CTX) (s : Store) (i : ObjectId) (p co : Bool),
      TagCodePreserved s (deleteTag ctx s i p co).2) ∧
    (∀ (ctx : CTX) (s : Store) (data : TagCreateInput),
      (∀ u ∈ s.tags, u.id < s.nextId) →
      TagCodePreserved s (createTag ctx s data).2) ∧
    (∀ (ctx : CTX) (s : Store) (i : ObjectId) (nm : String),
      (∀ u ∈ s.tags, u.id < s.nextId) →
      TagCodePreserved s (duplicateTag ctx s i nm).2) := by
  refine ⟨fun ctx => dupChain_tagCode ctx, ?_, ?_, ?_, ?_, ?_⟩
  · intro ctx s data
    rcases updateTag_snd ctx s data with h | ⟨t, hfind, h⟩
    · rw [h]
      exact tagCodePreserved_refl s
    · rw [h]
      apply tagCodePreserved_saveTag
      intro t0 h0
      have hid0 : t.id = data.tag_id := findTagById_id hfind
      have h0a : findTagById s t.id = some t0 := h0
      rw [hid0, hfind] at h0a
      cases h0a
      rfl
  · intro ctx s i no
    rcases updateRuleGroupsOrder_snd ctx s i no with h | ⟨t, hfind, h⟩
    · rw [h]
      exact tagCodePreserved_refl s
    · rw [h]
      apply tagCodePreserved_saveTag
      intro t0 h0
      have hid0 : t.id = i := findTagById_id hfind
      have h0a : findTagById s t.id = some t0 := h0
      rw [hid0, hfind] at h0a
      cases h0a
      rfl
  · intro ctx s i p co
    rcases deleteTag_snd ctx s i p co with h | ⟨r2, h⟩ | ⟨t, r2, hfind, h⟩
    · rw [h]
      exact tagCodePreserved_refl s
    · rw [h]
      intro j ta t2 h1 h2
      rw [findTagById_saveRevision, h1] at h2
      cases h2
      rfl
    · rw [h]
      intro j ta t2 h1 h2
      have h2a := findTagById_cascade _ t j t2 h2
      rw [findTagById_saveRevision, h1] at h2a
      cases h2a
      rfl
  · intro ctx s data hfresh
    rcases createTag_snd ctx s data with h | ⟨t1, r2, hid1, h⟩
    · rw [h]
      exact tagCodePreserved_refl s
    · rw [h]
      exact tagCodePreserved_fresh_save s t1 r2 hfresh hid1
  · intro ctx s i nm hfresh
    rcases duplicateTag_snd ctx s i nm with h | ⟨t1, r2, d, hid1, hidd, h⟩
    · rw [h]
      exact tagCodePreserved_refl s
    · rw [h]
      exact tagCodePreserved_dup_save s t1 d r2 hfresh hid1 hidd

/-- Claim C7 witness: the concrete duplicate-of-a-duplicate of tag 10 still
carries its `tagCode`. -/
theorem tagCode_stable_witness : exDup.1.tagCode = exTag.tagCode :=
  tagCode_stable.1 exCtx ["copy one", "copy two"] exStore 10 exTag exDup.1
    exDup.2 (by decide) (by decide)

end TagManager
